import Mathlib

/-!
Verification of the FHIR ingestion pipeline (src/fhir_ingestor.py).

The embedding models JSON values, Python truthiness, the dictionary
operations the source performs, and the exceptions those operations can
raise (as `Except PErr`).  The MongoDB collaborator is modelled as an
assoc store keyed by `(resourceType, id)` together with a dead-letter
list; every storage operation draws its success/failure outcome from an
explicit oracle list carried in the state (an exhausted oracle means the
write succeeds), so theorems can quantify over storage failures.
Wall-clock timestamps (the dead-letter `timestamp` field) are outside
the model and omitted; no claim inspects them.
-/

/- JSON values as fed to the ingestor.  Numbers are modelled as integers
(no claim involves fractional numerics).  `arr` and `obj` use the mutual
companion types `JArr`/`JObj` so that decidable equality derives. -/
mutual
inductive JSON where
  | null
  | bool (b : Bool)
  | num (n : Int)
  | str (s : String)
  | arr (elems : JArr)
  | obj (fields : JObj)
deriving DecidableEq

inductive JArr where
  | nil
  | cons (hd : JSON) (tl : JArr)
deriving DecidableEq

inductive JObj where
  | nil
  | cons (key : String) (val : JSON) (tl : JObj)
deriving DecidableEq
end

/-- Build a JArr from a list literal. -/
def jarr : List JSON → JArr
  | [] => .nil
  | x :: xs => .cons x (jarr xs)

/-- Build a JObj from a list literal. -/
def jobj : List (String × JSON) → JObj
  | [] => .nil
  | (k, v) :: xs => .cons k v (jobj xs)

/-- Python dict lookup `d.get(k)` on a dict with unique keys: first binding wins. -/
def JObj.lookup : JObj → String → Option JSON
  | .nil, _ => none
  | .cons k v rest, key => if k = key then some v else JObj.lookup rest key

/-- Emptiness test for JArr. -/
def JArr.isNil : JArr → Bool
  | .nil => true
  | .cons _ _ => false

/-- Emptiness test for JObj. -/
def JObj.isNil : JObj → Bool
  | .nil => true
  | .cons _ _ _ => false

/-- Python truthiness of a JSON value: None, False, 0, empty string, empty
list and empty dict are falsy, everything else truthy. -/
def JSON.truthy : JSON → Bool
  | .null => false
  | .bool b => b
  | .num n => n != 0
  | .str s => s != ""
  | .arr xs => !xs.isNil
  | .obj fs => !fs.isNil

/-- Truthiness of a `dict.get` result (`none` models Python `None` for a
missing key). -/
def optTruthy : Option JSON → Bool
  | none => false
  | some j => j.truthy

/-- Exception raised by a modelled Python operation. -/
structure PErr where
  msg : String
deriving DecidableEq

deriving instance DecidableEq for Except

/-- Python str.startswith: the prefix's characters are a prefix of the
string's characters. -/
def pyStartsWith (s p : String) : Bool := p.data.isPrefixOf s.data

/-- Helper for splitDot: accumulate characters up to each dot. -/
def splitDotAux : List Char → List Char → List String
  | [], acc => [String.mk acc.reverse]
  | c :: cs, acc =>
      if c = '.' then String.mk acc.reverse :: splitDotAux cs []
      else splitDotAux cs (c :: acc)

/-- Python path.split of a path on the dot character: one field name per
dot-separated segment. -/
def splitDot (s : String) : List String := splitDotAux s.data []

/-- FHIRIngestor._get_nested_value loop: walk the split path, requiring an
isinstance-dict at every step (returning None otherwise, never raising). -/
def getNestedStep : JSON → List String → Option JSON
  | current, [] => some current
  | .obj fs, key :: rest =>
      match fs.lookup key with
      | some v => getNestedStep v rest
      | none => none
  | _, _ :: _ => none

/-- FHIRIngestor._get_nested_value on a resource dict. -/
def getNestedValue (r : JObj) (path : String) : Option JSON :=
  getNestedStep (.obj r) (splitDot path)

/-- One candidate step of derive_patient_id:
`if ref and ref.startswith('Patient/'): return ref.split('/', 1)[1]`.
A truthy non-string ref raises AttributeError at `.startswith`; when the
guard holds, `split('/', 1)[1]` is everything after `Patient/`. -/
def refMatch : Option JSON → Except PErr (Option String)
  | none => .ok none
  | some j =>
      if j.truthy then
        match j with
        | .str s =>
            if pyStartsWith s "Patient/" then .ok (some (s.drop "Patient/".length))
            else .ok none
        | _ => .error ⟨"AttributeError: startswith on non-string"⟩
      else .ok none

/-- Scan of the contained list in derive_patient_id: return the first
contained resource of resourceType Patient whose id is truthy.  A non-dict
element raises AttributeError at `.get`. -/
def containedScan : JArr → Except PErr (Option JSON)
  | .nil => .ok none
  | .cons e rest =>
      match e with
      | .obj fs =>
          if fs.lookup "resourceType" = some (.str "Patient") then
            match fs.lookup "id" with
            | some pid => if pid.truthy then .ok (some pid) else containedScan rest
            | none => containedScan rest
          else containedScan rest
      | _ => .error ⟨"AttributeError: get on non-dict contained element"⟩

/-- Iterating `resource.get('contained', [])` in Python: a list iterates its
elements; an empty string or empty dict iterates nothing; a nonempty string
or dict yields strings whose `.get` raises; None, bools and numbers are not
iterable. -/
def iterContained : JSON → Except PErr (Option JSON)
  | .arr xs => containedScan xs
  | .str s => if s = "" then .ok none else .error ⟨"AttributeError: get on str"⟩
  | .obj fs => if fs.isNil then .ok none else .error ⟨"AttributeError: get on str key"⟩
  | .null => .error ⟨"TypeError: NoneType is not iterable"⟩
  | .bool _ => .error ⟨"TypeError: bool is not iterable"⟩
  | .num _ => .error ⟨"TypeError: int is not iterable"⟩

/-- FHIRIngestor.derive_patient_id: try subject.reference, then
patient.reference, then (for Encounter resources only)
encounter.subject.reference, then the first contained Patient with a
truthy id; a reference path only yields a value on the first string
starting with the literal Patient/.  Returns the raw id value found (a
string for reference paths; the contained resource's id value, whatever
its type, for the contained fallback). -/
def derivePatientId (r : JObj) : Except PErr (Option JSON) :=
  match refMatch (getNestedValue r "subject.reference") with
  | .error e => .error e
  | .ok (some pid) => .ok (some (.str pid))
  | .ok none =>
    match refMatch (getNestedValue r "patient.reference") with
    | .error e => .error e
    | .ok (some pid) => .ok (some (.str pid))
    | .ok none =>
      match (if r.lookup "resourceType" = some (JSON.str "Encounter")
             then refMatch (getNestedValue r "encounter.subject.reference")
             else .ok none) with
      | .error e => .error e
      | .ok (some pid) => .ok (some (.str pid))
      | .ok none =>
        match r.lookup "contained" with
        | some c => iterContained c
        | none => .ok none

/-- FHIRIngestor.SUPPORTED_RESOURCES: resource type to collection name. -/
def SUPPORTED_RESOURCES : List (String × String) :=
  [("Patient", "patients"), ("Observation", "observations"),
   ("Encounter", "encounters"), ("Condition", "conditions"),
   ("Procedure", "procedures"), ("MedicationRequest", "medication_requests"),
   ("DocumentReference", "document_references"),
   ("AllergyIntolerance", "allergies"),
   ("DiagnosticReport", "diagnostic_reports")]

/-- Python `resource_type in SUPPORTED_RESOURCES` membership test: strings
test against the keys; other hashable scalars are simply not members; an
unhashable value (list or dict) raises TypeError. -/
def memSupported : JSON → Except PErr Bool
  | .str s => .ok (SUPPORTED_RESOURCES.lookup s).isSome
  | .arr _ => .error ⟨"TypeError: unhashable type list"⟩
  | .obj _ => .error ⟨"TypeError: unhashable type dict"⟩
  | .null => .ok false
  | .bool _ => .ok false
  | .num _ => .ok false

/-- Python str() of a scalar, used only to format the unsupported-type
violation message (the unhashable cases raise before any formatting, so
their rendering is never observable). -/
def pyStr : JSON → String
  | .str s => s
  | .num n => toString n
  | .bool b => if b then "True" else "False"
  | .null => "None"
  | .arr _ => "<unreachable>"
  | .obj _ => "<unreachable>"

/-- Type-specific required-field checks of validate_resource, in source
order; all violations are collected, none short-circuits. -/
def typeSpecific (rt : JSON) (r : JObj) : List String :=
  if rt = JSON.str "Patient" then
    (if optTruthy (r.lookup "name") = false then ["Patient missing name"] else [])
  else if rt = JSON.str "Observation" then
    (if optTruthy (r.lookup "status") = false then ["Observation missing status"] else []) ++
    (if optTruthy (r.lookup "code") = false then ["Observation missing code"] else []) ++
    (if optTruthy (r.lookup "effectiveDateTime") = false &&
        optTruthy (r.lookup "effectivePeriod") = false
     then ["Observation missing effectiveDateTime or effectivePeriod"] else [])
  else if rt = JSON.str "Encounter" then
    (if optTruthy (r.lookup "status") = false then ["Encounter missing status"] else [])
  else if rt = JSON.str "Condition" then
    (if optTruthy (r.lookup "code") = false then ["Condition missing code"] else [])
  else []

/-- FHIRIngestor.validate_resource: base checks short-circuit in order
(missing resourceType, missing id, unsupported type), then type-specific
checks accumulate, then the patient-link derivation check appends one more
violation when no truthy link resolves; valid iff the list is empty. -/
def validateResource (r : JObj) : Except PErr (Bool × List String) :=
  let rt := r.lookup "resourceType"
  let rid := r.lookup "id"
  if optTruthy rt = false then .ok (false, ["Missing resourceType"])
  else if optTruthy rid = false then .ok (false, ["Missing id"])
  else
    match memSupported (rt.getD .null) with
    | .error e => .error e
    | .ok false =>
        .ok (false, ["Unsupported resourceType: " ++ pyStr (rt.getD .null)])
    | .ok true =>
        let errs := typeSpecific (rt.getD .null) r
        match derivePatientId r with
        | .error e => .error e
        | .ok pid =>
            let errs2 := errs ++
              (if optTruthy pid = false
               then ["Cannot derive patientId from resource"] else [])
            .ok (errs2.isEmpty, errs2)

/-- Run statistics (FHIRIngestor.stats), initialised once in __init__. -/
structure Stats where
  processed : Nat
  inserted : Nat
  updated : Nat
  errors : Nat
  dead_letter : Nat
deriving DecidableEq

/-- Counters as set by FHIRIngestor.__init__. -/
def Stats.init : Stats := ⟨0, 0, 0, 0, 0⟩

/-- Denormalized document built by process_resource (the fields set by the
doc literal, the update call, and the conditional encounterId). -/
structure StoredDoc where
  resourceType : String
  id : JSON
  patientId : JSON
  resource : JObj
  metaVersionId : Option JSON
  metaLastUpdated : Option JSON
  status : Option JSON
  code : Option JSON
  category : Option JSON
  effectiveDateTime : Option JSON
  issued : Option JSON
  occurrenceDateTime : Option JSON
  onsetDateTime : Option JSON
  authoredOn : Option JSON
  recordedDate : Option JSON
  encounterId : Option String
deriving DecidableEq

/-- Dead-letter document built by _store_dead_letter (the wall-clock
timestamp field is outside the model). -/
structure DeadDoc where
  resourceType : Option JSON
  id : Option JSON
  reason : String
  details : List String
  resource : JObj
deriving DecidableEq

/-- Ingestor plus storage state: statistics, the stored documents keyed by
`(resourceType, id)` (collections are disjoint per resource type, so one
global keyed store is faithful), the dead-letter collection, and the
oracle of storage-operation outcomes (empty means every write succeeds). -/
structure IngSt where
  stats : Stats
  docs : List ((String × JSON) × StoredDoc)
  dead : List DeadDoc
  oracle : List Bool
deriving DecidableEq

/-- Draw the outcome of the next storage operation from the oracle. -/
def nextWrite (st : IngSt) : Bool × IngSt :=
  match st.oracle with
  | [] => (true, st)
  | b :: rest => (b, { st with oracle := rest })

/-- Assoc lookup in the keyed document store (the update_one filter). -/
def docsFind : List ((String × JSON) × StoredDoc) → (String × JSON) → Option StoredDoc
  | [], _ => none
  | (k, d) :: rest, key => if k = key then some d else docsFind rest key

/-- Replace the document bound to a key, in place. -/
def docsReplace :
    List ((String × JSON) × StoredDoc) → (String × JSON) → StoredDoc →
    List ((String × JSON) × StoredDoc)
  | [], _, _ => []
  | (k, d) :: rest, key, newDoc =>
      if k = key then (k, newDoc) :: rest
      else (k, d) :: docsReplace rest key newDoc

/-- Effect of update_one with a full-field $set on an existing document:
every listed field is overwritten; the only conditionally-listed field is
encounterId, which keeps its old value when the new doc does not set it. -/
def applyUpsert (old : StoredDoc) (d : StoredDoc) : StoredDoc :=
  { d with encounterId := match d.encounterId with
                          | some x => some x
                          | none => old.encounterId }

/-- collection.update_one(filter, set, upsert=True): a failed write raises
(caught by the caller); otherwise insert when the key is absent (returning
an upserted id, modelled as true) or update in place (false). -/
def upsertDoc (st : IngSt) (key : String × JSON) (d : StoredDoc) :
    IngSt × Except PErr Bool :=
  let p := nextWrite st
  if p.1 = false then (p.2, .error ⟨"storage failure"⟩)
  else
    match docsFind p.2.docs key with
    | some old =>
        ({ p.2 with docs := docsReplace p.2.docs key (applyUpsert old d) }, .ok false)
    | none => ({ p.2 with docs := p.2.docs ++ [(key, d)] }, .ok true)

/-- FHIRIngestor._store_dead_letter: build the entry, attempt the insert,
and count it only when the insert succeeds (a failure is logged and
swallowed). -/
def storeDeadLetter (st : IngSt) (r : JObj) (reason : String)
    (details : List String) : IngSt :=
  let d : DeadDoc := { resourceType := r.lookup "resourceType",
                       id := r.lookup "id", reason := reason,
                       details := details, resource := r }
  let p := nextWrite st
  if p.1 then
    { p.2 with dead := p.2.dead ++ [d],
               stats := { p.2.stats with
                          dead_letter := p.2.stats.dead_letter + 1 } }
  else p.2

/-- Python attribute-style `v.get(k)`: raises AttributeError unless v is a
dict. -/
def pyGetAttr (v : JSON) (k : String) : Except PErr (Option JSON) :=
  match v with
  | .obj fs => .ok (fs.lookup k)
  | _ => .error ⟨"AttributeError: get on non-dict"⟩

/-- The encounter-reference extraction of process_resource:
`if encounter_ref and encounter_ref.startswith('Encounter/')`. -/
def encounterRefId : Option JSON → Except PErr (Option String)
  | none => .ok none
  | some j =>
      if j.truthy then
        match j with
        | .str s =>
            if pyStartsWith s "Encounter/" then .ok (some (s.drop "Encounter/".length))
            else .ok none
        | _ => .error ⟨"AttributeError: startswith on non-string"⟩
      else .ok none

/-- Document construction in process_resource (lines 244..271): the base
doc literal, the update with meta and top-level clinical fields, and the
conditional encounterId; a non-dict meta or encounter value raises at its
`.get`, exactly as the source does. -/
def buildDoc (r : JObj) (rtS : String) (rid : JSON) (pid : JSON) :
    Except PErr StoredDoc :=
  let metaJ := (r.lookup "meta").getD (.obj .nil)
  match pyGetAttr metaJ "versionId" with
  | .error e => .error e
  | .ok mv =>
    match pyGetAttr metaJ "lastUpdated" with
    | .error e => .error e
    | .ok ml =>
      let encJ := (r.lookup "encounter").getD (.obj .nil)
      match pyGetAttr encJ "reference" with
      | .error e => .error e
      | .ok encRef =>
        match encounterRefId encRef with
        | .error e => .error e
        | .ok encId =>
            .ok { resourceType := rtS, id := rid, patientId := pid,
                  resource := r,
                  metaVersionId := mv, metaLastUpdated := ml,
                  status := r.lookup "status", code := r.lookup "code",
                  category := r.lookup "category",
                  effectiveDateTime := r.lookup "effectiveDateTime",
                  issued := r.lookup "issued",
                  occurrenceDateTime := r.lookup "occurrenceDateTime",
                  onsetDateTime := r.lookup "onsetDateTime",
                  authoredOn := r.lookup "authoredOn",
                  recordedDate := r.lookup "recordedDate",
                  encounterId := encId }

/-- Increment the processed counter. -/
def bumpProcessed (st : IngSt) : IngSt :=
  { st with stats := { st.stats with processed := st.stats.processed + 1 } }

/-- Increment the errors counter. -/
def bumpErrors (st : IngSt) : IngSt :=
  { st with stats := { st.stats with errors := st.stats.errors + 1 } }

/-- Increment the inserted counter. -/
def bumpInserted (st : IngSt) : IngSt :=
  { st with stats := { st.stats with inserted := st.stats.inserted + 1 } }

/-- Increment the updated counter. -/
def bumpUpdated (st : IngSt) : IngSt :=
  { st with stats := { st.stats with updated := st.stats.updated + 1 } }

/-- FHIRIngestor.process_resource.  The processed counter is incremented
first; an exception raised by validation, derivation or document
construction propagates to the caller with the state mutated so far (the
in-place stats survive the raise); validation failure and an unresolvable
link dead-letter and count an error; the upsert result selects inserted
vs updated; a storage failure is caught, dead-lettered and counted.  The
branches returning errors after a passed validation model the raising
dict lookups `resource['resourceType']`, `SUPPORTED_RESOURCES[...]` and
`resource['id']` and are unreachable (validation already pinned them). -/
def processResource (st0 : IngSt) (r : JObj) : IngSt × Except PErr Bool :=
  let st := bumpProcessed st0
  match validateResource r with
  | .error e => (st, .error e)
  | .ok (valid, errs) =>
    if valid = false then
      (bumpErrors (storeDeadLetter st r "validation_error" errs), .ok false)
    else
      match derivePatientId r with
      | .error e => (st, .error e)
      | .ok pidOpt =>
        if optTruthy pidOpt = false then
          (bumpErrors (storeDeadLetter st r "no_patient_reference" []), .ok false)
        else
          match r.lookup "resourceType" with
          | some (.str rtS) =>
            match SUPPORTED_RESOURCES.lookup rtS with
            | some _collName =>
              match r.lookup "id" with
              | some rid =>
                match buildDoc r rtS rid (pidOpt.getD .null) with
                | .error e => (st, .error e)
                | .ok d =>
                  match upsertDoc st (rtS, rid) d with
                  | (st2, .ok true) => (bumpInserted st2, .ok true)
                  | (st2, .ok false) => (bumpUpdated st2, .ok true)
                  | (st2, .error e) =>
                      (bumpErrors (storeDeadLetter st2 r "storage_error" [e.msg]),
                       .ok false)
              | none => (st, .error ⟨"KeyError: id"⟩)
            | none => (st, .error ⟨"KeyError: resourceType not a collection"⟩)
          | _ => (st, .error ⟨"TypeError or KeyError: resourceType"⟩)

/-- Sequential processing of a list of resources, one process_resource
call each; an uncaught exception aborts the remainder of the loop while
keeping all state mutations made so far. -/
def processSeq (st : IngSt) : List JObj → IngSt × Except PErr Unit
  | [] => (st, .ok ())
  | r :: rest =>
      match processResource st r with
      | (st1, .ok _) => processSeq st1 rest
      | (st1, .error e) => (st1, .error e)

/-- Slicing of `range(0, len(resources), batch_size)` into successive
chunks.  process_batch only reaches this with a positive batch size (a
zero step raises ValueError first); the inner `max` keeps the recursion
well-founded for the unreachable zero case without changing any reachable
result. -/
def listChunks (bs : Nat) : List JObj → List (List JObj)
  | [] => []
  | x :: xs => (x :: xs).take (max bs 1) :: listChunks bs ((x :: xs).drop (max bs 1))
termination_by l => l.length
decreasing_by simp [List.length_drop]

/-- Chunk-by-chunk driver of process_batch's outer loop. -/
def processChunks (st : IngSt) : List (List JObj) → IngSt × Except PErr Unit
  | [] => (st, .ok ())
  | c :: cs =>
      match processSeq st c with
      | (st1, .ok _) => processChunks st1 cs
      | (st1, .error e) => (st1, .error e)

/-- FHIRIngestor.process_batch: chunk the input, process every resource of
every chunk in order, and return a copy of the statistics; a zero batch
size raises ValueError at the range call; an exception escaping a
process_resource call propagates. -/
def processBatch (st : IngSt) (resources : List JObj) (batchSize : Nat) :
    IngSt × Except PErr Stats :=
  if batchSize = 0 then (st, .error ⟨"ValueError: range arg 3 must not be zero"⟩)
  else
    match processChunks st (listChunks batchSize resources) with
    | (st1, .ok _) => (st1, .ok st1.stats)
    | (st1, .error e) => (st1, .error e)

/-- State of a freshly constructed ingestor over an empty store, with
every storage write succeeding. -/
def initialState : IngSt := { stats := Stats.init, docs := [], dead := [], oracle := [] }

/-- Freshly constructed ingestor over an empty store with a prescribed
storage-outcome oracle. -/
def initialStateOracle (o : List Bool) : IngSt :=
  { stats := Stats.init, docs := [], dead := [], oracle := o }

/-- Spec-side reference semantics for claim C9: process each resource one
at a time sequentially (no chunking) and return the statistics snapshot. -/
def sequentialRun (st : IngSt) (resources : List JObj) : IngSt × Except PErr Stats :=
  match processSeq st resources with
  | (st1, .ok _) => (st1, .ok st1.stats)
  | (st1, .error e) => (st1, .error e)

/-- Predicate on a reference-path value: absent, falsy, or a string.  A
truthy non-string at any of the paths the source inspects raises
AttributeError at `.startswith`. -/
def refOk : Option JSON → Bool
  | none => true
  | some (.str _) => true
  | some j => !j.truthy

/-- Predicate on a reference-path value saying it yields no candidate:
absent, falsy, or a string that does not start with `Patient/`. -/
def refSkip : Option JSON → Bool
  | none => true
  | some (.str s) => !(pyStartsWith s "Patient/")
  | some j => !j.truthy

/-- Well-formedness of one contained sub-resource per the spec data model:
an object whose id, when truthy, is a string. -/
def containedElemOk : JSON → Bool
  | .obj fs =>
      (match fs.lookup "id" with
       | none => true
       | some (.str _) => true
       | some j => !j.truthy)
  | _ => false

/-- All elements of a contained array are well-formed. -/
def containedArrOk : JArr → Bool
  | .nil => true
  | .cons e rest => containedElemOk e && containedArrOk rest

/-- The contained field, when present, is an array of well-formed
sub-resources. -/
def containedOk : Option JSON → Bool
  | none => true
  | some (.arr xs) => containedArrOk xs
  | some _ => false

/-- The resourceType value, when present, is hashable (not a list/dict). -/
def hashableOk : Option JSON → Bool
  | some (.arr _) => false
  | some (.obj _) => false
  | _ => true

/-- The field, when present, is an object. -/
def objOk : Option JSON → Bool
  | none => true
  | some (.obj _) => true
  | some _ => false

/-- Well-typedness of a resource according to the data model of the spec
(resources are semi-structured records whose reference fields hold
reference strings, whose contained field is an ordered sequence of
sub-resources with string ids, and whose resourceType, meta and encounter
fields have their declared shapes).  On this domain no modelled Python
operation of the pipeline raises. -/
def Sane (r : JObj) : Bool :=
  refOk (getNestedValue r "subject.reference") &&
  refOk (getNestedValue r "patient.reference") &&
  refOk (getNestedValue r "encounter.subject.reference") &&
  containedOk (r.lookup "contained") &&
  hashableOk (r.lookup "resourceType") &&
  objOk (r.lookup "meta") &&
  objOk (r.lookup "encounter") &&
  refOk (getNestedValue r "encounter.reference")

/-- Sample valid Patient resource (its patient link is its own subject
reference). -/
def patientP1 : JObj := jobj [("resourceType", .str "Patient"), ("id", .str "p1"),
  ("name", .arr (jarr [.obj (jobj [("family", .str "Doe")])])),
  ("subject", .obj (jobj [("reference", .str "Patient/p1")]))]

/-- Sample valid Observation resource linked to Patient p1. -/
def obsO1 : JObj := jobj [("resourceType", .str "Observation"), ("id", .str "o1"),
  ("status", .str "final"), ("code", .obj (jobj [("text", .str "bp")])),
  ("effectiveDateTime", .str "2023-01-01"),
  ("subject", .obj (jobj [("reference", .str "Patient/p1")]))]

/-- Observation that passes every structural and type-specific check but
has no resolvable patient reference. -/
def obsNoRef : JObj := jobj [("resourceType", .str "Observation"), ("id", .str "o2"),
  ("status", .str "final"), ("code", .obj (jobj [("text", .str "bp")])),
  ("effectiveDateTime", .str "2023-01-01")]

/-- Resource with both a direct subject reference Patient/123 and an
embedded contained Patient with id 999. -/
def rBoth : JObj := jobj [("resourceType", .str "Observation"), ("id", .str "x"),
  ("status", .str "final"), ("code", .obj (jobj [("text", .str "bp")])),
  ("effectiveDateTime", .str "2023-01-01"),
  ("subject", .obj (jobj [("reference", .str "Patient/123")])),
  ("contained", .arr (jarr [.obj (jobj [("resourceType", .str "Patient"),
                                        ("id", .str "999")])]))]

/-- Observation with id and effective date but missing both status and
code, linked to a patient. -/
def obsMissingBoth : JObj := jobj [("resourceType", .str "Observation"),
  ("id", .str "o3"), ("effectiveDateTime", .str "2023-01-01"),
  ("subject", .obj (jobj [("reference", .str "Patient/p1")]))]

/-- A skipped reference candidate yields no match and no exception. -/
theorem refMatch_of_refSkip (v : Option JSON) (h : refSkip v = true) :
    refMatch v = .ok none := by
  match v with
  | none => rfl
  | some .null => rfl
  | some (.bool b) =>
      simp [refSkip, JSON.truthy] at h
      simp [refMatch, JSON.truthy, h]
  | some (.num n) =>
      simp [refSkip, JSON.truthy] at h
      simp [refMatch, JSON.truthy, h]
  | some (.str s) =>
      simp [refSkip] at h
      simp [refMatch, JSON.truthy, h]
  | some (.arr xs) =>
      simp [refSkip, JSON.truthy] at h
      simp [refMatch, JSON.truthy, h]
  | some (.obj fs) =>
      simp [refSkip, JSON.truthy] at h
      simp [refMatch, JSON.truthy, h]

/-- A well-typed reference candidate never raises. -/
theorem refMatch_ok_of_refOk (v : Option JSON) (h : refOk v = true) :
    ∃ o, refMatch v = .ok o := by
  match v with
  | none => exact ⟨none, rfl⟩
  | some (.str s) =>
      by_cases ht : (JSON.str s).truthy
      · by_cases hs : pyStartsWith s "Patient/"
        · exact ⟨some (s.drop "Patient/".length), by simp [refMatch, ht, hs]⟩
        · exact ⟨none, by simp [refMatch, ht, hs]⟩
      · exact ⟨none, by simp [refMatch, ht]⟩
  | some .null => exact ⟨none, rfl⟩
  | some (.bool b) =>
      simp [refOk, JSON.truthy] at h
      exact ⟨none, by simp [refMatch, JSON.truthy, h]⟩
  | some (.num n) =>
      simp [refOk, JSON.truthy] at h
      exact ⟨none, by simp [refMatch, JSON.truthy, h]⟩
  | some (.arr xs) =>
      simp [refOk, JSON.truthy] at h
      exact ⟨none, by simp [refMatch, JSON.truthy, h]⟩
  | some (.obj fs) =>
      simp [refOk, JSON.truthy] at h
      exact ⟨none, by simp [refMatch, JSON.truthy, h]⟩

/-- Scanning a well-formed contained array never raises, and any id it
returns is a truthy string. -/
theorem containedScan_ok : ∀ (xs : JArr), containedArrOk xs = true →
    containedScan xs = .ok none ∨
    ∃ s, s ≠ "" ∧ containedScan xs = .ok (some (.str s))
  | .nil, _ => Or.inl rfl
  | .cons e rest, h => by
      simp [containedArrOk] at h
      obtain ⟨he, hrest⟩ := h
      match e, he with
      | .obj fs, he =>
          by_cases hp : fs.lookup "resourceType" = some (.str "Patient")
          · simp [containedElemOk] at he
            match hid : fs.lookup "id" with
            | none =>
                have := containedScan_ok rest hrest
                simpa [containedScan, hp, hid] using this
            | some pid =>
                rw [hid] at he
                by_cases ht : pid.truthy
                · have hstr : ∃ s, pid = JSON.str s ∧ s ≠ "" := by
                    cases pid with
                    | str s => exact ⟨s, rfl, by simpa [JSON.truthy] using ht⟩
                    | null => simp [JSON.truthy] at ht
                    | bool b => simp [JSON.truthy] at he ht; simp [he] at ht
                    | num n => simp [JSON.truthy] at he ht; simp [he] at ht
                    | arr ys => simp [JSON.truthy] at he ht; simp [he] at ht
                    | obj fs2 => simp [JSON.truthy] at he ht; simp [he] at ht
                  obtain ⟨s, hs, hne⟩ := hstr
                  subst hs
                  exact Or.inr ⟨s, hne, by simp [containedScan, hp, hid, ht]⟩
                · have := containedScan_ok rest hrest
                  simpa [containedScan, hp, hid, ht] using this
          · have := containedScan_ok rest hrest
            simpa [containedScan, hp] using this

/-- Iterating a well-formed contained field never raises, and any id it
returns is a truthy string. -/
theorem iterContained_ok (c : JSON) (h : containedOk (some c) = true) :
    iterContained c = .ok none ∨
    ∃ s, s ≠ "" ∧ iterContained c = .ok (some (.str s)) := by
  match c with
  | .arr xs =>
      simp [containedOk] at h
      simpa [iterContained] using containedScan_ok xs h
  | .null | .bool _ | .num _ | .str _ | .obj _ => simp [containedOk] at h

/-- Unpack the conjuncts of Sane. -/
theorem sane_parts (r : JObj) (h : Sane r = true) :
    refOk (getNestedValue r "subject.reference") = true ∧
    refOk (getNestedValue r "patient.reference") = true ∧
    refOk (getNestedValue r "encounter.subject.reference") = true ∧
    containedOk (r.lookup "contained") = true ∧
    hashableOk (r.lookup "resourceType") = true ∧
    objOk (r.lookup "meta") = true ∧
    objOk (r.lookup "encounter") = true ∧
    refOk (getNestedValue r "encounter.reference") = true := by
  unfold Sane at h
  simp only [Bool.and_eq_true, and_assoc] at h
  exact h

/-- On a well-typed resource, derive_patient_id never raises, and any link
it returns is a string. -/
theorem derive_ok_of_sane (r : JObj) (h : Sane r = true) :
    ∃ o, derivePatientId r = .ok o ∧ (o = none ∨ ∃ s, o = some (.str s)) := by
  obtain ⟨h1, h2, h3, h4, -, -, -, -⟩ := sane_parts r h
  obtain ⟨o1, ho1⟩ := refMatch_ok_of_refOk _ h1
  unfold derivePatientId
  simp only [ho1]
  match o1 with
  | some pid => exact ⟨some (.str pid), rfl, Or.inr ⟨pid, rfl⟩⟩
  | none =>
    obtain ⟨o2, ho2⟩ := refMatch_ok_of_refOk _ h2
    simp only [ho2]
    match o2 with
    | some pid => exact ⟨some (.str pid), rfl, Or.inr ⟨pid, rfl⟩⟩
    | none =>
      by_cases henc : r.lookup "resourceType" = some (JSON.str "Encounter")
      · simp only [if_pos henc]
        obtain ⟨o3, ho3⟩ := refMatch_ok_of_refOk _ h3
        simp only [ho3]
        match o3 with
        | some pid => exact ⟨some (.str pid), rfl, Or.inr ⟨pid, rfl⟩⟩
        | none =>
          cases hc : r.lookup "contained" with
          | some c =>
              simp only [hc]
              rw [hc] at h4
              rcases iterContained_ok c h4 with hnone | ⟨s, _hs, hsome⟩
              · exact ⟨none, hnone, Or.inl rfl⟩
              · exact ⟨some (.str s), hsome, Or.inr ⟨s, rfl⟩⟩
          | none => exact ⟨none, by simp only [hc], Or.inl rfl⟩
      · simp only [if_neg henc]
        cases hc : r.lookup "contained" with
        | some c =>
            simp only [hc]
            rw [hc] at h4
            rcases iterContained_ok c h4 with hnone | ⟨s, _hs, hsome⟩
            · exact ⟨none, hnone, Or.inl rfl⟩
            · exact ⟨some (.str s), hsome, Or.inr ⟨s, rfl⟩⟩
        | none => exact ⟨none, by simp only [hc], Or.inl rfl⟩

/-- A truthy optional value is a present truthy value. -/
theorem optTruthy_true_inv (v : Option JSON) (h : optTruthy v = true) :
    ∃ j, v = some j ∧ j.truthy = true := by
  cases v with
  | none => simp [optTruthy] at h
  | some j => exact ⟨j, rfl, h⟩

/-- A present value passing the supported-membership test is a supported
type string. -/
theorem memSupported_true_inv (v : Option JSON) (hv : optTruthy v = true)
    (h : memSupported (v.getD .null) = .ok true) :
    ∃ s, v = some (.str s) ∧ (SUPPORTED_RESOURCES.lookup s).isSome = true ∧
      s ≠ "" := by
  obtain ⟨j, hj, ht⟩ := optTruthy_true_inv v hv
  subst hj
  cases j with
  | str s =>
      simp [memSupported] at h
      exact ⟨s, rfl, by simp [h], by simpa [JSON.truthy] using ht⟩
  | null => simp [memSupported] at h
  | bool b => simp [memSupported] at h
  | num n => simp [memSupported] at h
  | arr xs => simp [memSupported] at h
  | obj fs => simp [memSupported] at h

/-- Inversion of a passed validation: the violation list is empty, the
resource carries a truthy id and a supported resourceType string, the
type-specific checks are clean, and the link derivation returned a truthy
value. -/
theorem validate_true_inv (r : JObj) (errs : List String)
    (h : validateResource r = .ok (true, errs)) :
    errs = [] ∧
    (∃ s, r.lookup "resourceType" = some (.str s) ∧
       (SUPPORTED_RESOURCES.lookup s).isSome = true) ∧
    (∃ rid, r.lookup "id" = some rid ∧ rid.truthy = true) ∧
    typeSpecific ((r.lookup "resourceType").getD .null) r = [] ∧
    ∃ pid, derivePatientId r = .ok (some pid) ∧ pid.truthy = true := by
  unfold validateResource at h
  by_cases hrt : optTruthy (r.lookup "resourceType") = false
  · rw [if_pos hrt] at h; simp at h
  · rw [if_neg hrt] at h
    by_cases hid : optTruthy (r.lookup "id") = false
    · rw [if_pos hid] at h; simp at h
    · rw [if_neg hid] at h
      rcases hms : memSupported ((r.lookup "resourceType").getD .null) with e | b
      · simp only [hms] at h; simp at h
      · simp only [hms] at h
        cases b with
        | false => simp at h
        | true =>
            rcases hdp : derivePatientId r with e | pid
            · simp only [hdp] at h; simp at h
            · simp only [hdp] at h
              by_cases hpt : optTruthy pid = false
              · rw [if_pos hpt] at h
                simp only [Except.ok.injEq, Prod.mk.injEq] at h
                obtain ⟨hts, -⟩ := h
                simp at hts
              · rw [if_neg hpt] at h
                simp only [List.append_nil, Except.ok.injEq, Prod.mk.injEq,
                  List.isEmpty_iff] at h
                obtain ⟨hts, herrs⟩ := h
                refine ⟨?_, ?_, ?_, ?_, ?_⟩
                · rw [← herrs, hts]
                · obtain ⟨s, hs, hsup, -⟩ :=
                    memSupported_true_inv _ (by simpa using hrt) hms
                  exact ⟨s, hs, hsup⟩
                · exact optTruthy_true_inv _ (by simpa using hid)
                · exact hts
                · obtain ⟨j, hj, hjt⟩ := optTruthy_true_inv pid (by simpa using hpt)
                  exact ⟨j, by rw [hj], hjt⟩

/-- On a well-typed resource, validation never raises. -/
theorem validate_ok_of_sane (r : JObj) (h : Sane r = true) :
    ∃ v e, validateResource r = .ok (v, e) := by
  obtain ⟨-, -, -, -, h5, -, -, -⟩ := sane_parts r h
  unfold validateResource
  by_cases hrt : optTruthy (r.lookup "resourceType") = false
  · exact ⟨false, _, by rw [if_pos hrt]⟩
  · rw [if_neg hrt]
    by_cases hid : optTruthy (r.lookup "id") = false
    · exact ⟨false, _, by rw [if_pos hid]⟩
    · rw [if_neg hid]
      have hms : ∃ b, memSupported ((r.lookup "resourceType").getD .null) = .ok b := by
        rcases hv : r.lookup "resourceType" with - | j
        · exact ⟨false, rfl⟩
        · rw [hv] at h5
          cases j with
          | str s => exact ⟨(SUPPORTED_RESOURCES.lookup s).isSome, rfl⟩
          | null => exact ⟨false, rfl⟩
          | bool b => exact ⟨false, rfl⟩
          | num n => exact ⟨false, rfl⟩
          | arr xs => simp [hashableOk] at h5
          | obj fs => simp [hashableOk] at h5
      obtain ⟨b, hb⟩ := hms
      simp only [hb]
      cases b with
      | false => exact ⟨false, _, rfl⟩
      | true =>
          obtain ⟨o, ho, -⟩ := derive_ok_of_sane r h
          simp only [ho]
          exact ⟨_, _, rfl⟩

/-- The statistics impact of a dead-letter attempt: only the dead-letter
counter can move, by at most one; the stored documents are untouched and
exactly one entry with the given reason may be appended. -/
theorem storeDeadLetter_shape (st : IngSt) (r : JObj) (reason : String)
    (ds : List String) :
    ((storeDeadLetter st r reason ds).stats.processed = st.stats.processed ∧
     (storeDeadLetter st r reason ds).stats.inserted = st.stats.inserted ∧
     (storeDeadLetter st r reason ds).stats.updated = st.stats.updated ∧
     (storeDeadLetter st r reason ds).stats.errors = st.stats.errors) ∧
    ((storeDeadLetter st r reason ds).stats.dead_letter = st.stats.dead_letter ∨
     (storeDeadLetter st r reason ds).stats.dead_letter = st.stats.dead_letter + 1) ∧
    (storeDeadLetter st r reason ds).docs = st.docs ∧
    ((storeDeadLetter st r reason ds).dead = st.dead ∨
     (storeDeadLetter st r reason ds).dead =
       st.dead ++ [⟨r.lookup "resourceType", r.lookup "id", reason, ds, r⟩]) := by
  unfold storeDeadLetter nextWrite
  rcases ho : st.oracle with - | ⟨b, rest⟩
  · simp
  · cases b <;> simp

/-- With an exhausted oracle every write succeeds, so a dead-letter
attempt appends exactly one entry, bumps the dead-letter counter, leaves
the rest of the statistics alone and empties nothing. -/
theorem storeDeadLetter_nilOracle (st : IngSt) (r : JObj) (reason : String)
    (ds : List String) (h : st.oracle = []) :
    storeDeadLetter st r reason ds =
      { st with dead := st.dead ++ [⟨r.lookup "resourceType", r.lookup "id",
                                     reason, ds, r⟩],
                stats := { st.stats with
                           dead_letter := st.stats.dead_letter + 1 } } := by
  unfold storeDeadLetter nextWrite
  rw [h]
  simp [h]

/-- The statistics are untouched by the raw upsert operation itself. -/
theorem upsertDoc_stats (st : IngSt) (key : String × JSON) (d : StoredDoc) :
    (upsertDoc st key d).1.stats = st.stats := by
  unfold upsertDoc nextWrite
  rcases ho : st.oracle with - | ⟨b, rest⟩
  · cases hf : docsFind st.docs key <;> simp [hf]
  · cases b
    · simp
    · simp
      cases hf : docsFind ({ st with oracle := rest } : IngSt).docs key <;> simp [hf]

/-- Sequential processing distributes over append, propagating an
exception raised in the first part. -/
theorem processSeq_append (st : IngSt) (l1 l2 : List JObj) :
    processSeq st (l1 ++ l2) =
      match processSeq st l1 with
      | (st1, .ok _) => processSeq st1 l2
      | (st1, .error e) => (st1, .error e) := by
  induction l1 generalizing st with
  | nil => simp [processSeq]
  | cons r rest ih =>
      simp only [List.cons_append, processSeq]
      rcases hpr : processResource st r with ⟨st1, res⟩
      cases res with
      | ok b => simpa using ih st1
      | error e => simp

/-- Processing the chunk slices one chunk at a time is the same as
processing the whole input sequentially. -/
theorem processChunks_listChunks (bs : Nat) : ∀ (l : List JObj) (st : IngSt),
    processChunks st (listChunks bs l) = processSeq st l
  | [], st => by simp [listChunks, processChunks, processSeq]
  | x :: xs, st => by
      rw [listChunks]
      simp only [processChunks]
      conv_rhs => rw [(List.take_append_drop (max bs 1) (x :: xs)).symm]
      rw [processSeq_append]
      rcases hps : processSeq st ((x :: xs).take (max bs 1)) with ⟨st1, res⟩
      cases res with
      | ok u =>
          simpa using processChunks_listChunks bs ((x :: xs).drop (max bs 1)) st1
      | error e => simp
termination_by l => l.length
decreasing_by simp [List.length_drop]

/-- process_batch with any positive batch size is the plain sequential
run: chunking is observationally a no-op. -/
theorem processBatch_eq_seq (st : IngSt) (rs : List JObj) (bs : Nat)
    (h : 1 ≤ bs) : processBatch st rs bs = sequentialRun st rs := by
  unfold processBatch sequentialRun
  rw [if_neg (by omega), processChunks_listChunks]

/-- A well-typed encounter reference value never raises during
extraction. -/
theorem encounterRefId_ok (v : Option JSON) (h : refOk v = true) :
    ∃ o, encounterRefId v = .ok o := by
  match v with
  | none => exact ⟨none, rfl⟩
  | some (.str s) =>
      by_cases ht : (JSON.str s).truthy
      · by_cases hs : pyStartsWith s "Encounter/"
        · exact ⟨some (s.drop "Encounter/".length), by simp [encounterRefId, ht, hs]⟩
        · exact ⟨none, by simp [encounterRefId, ht, hs]⟩
      · exact ⟨none, by simp [encounterRefId, ht]⟩
  | some .null => exact ⟨none, rfl⟩
  | some (.bool b) =>
      simp [refOk, JSON.truthy] at h
      exact ⟨none, by simp [encounterRefId, JSON.truthy, h]⟩
  | some (.num n) =>
      simp [refOk, JSON.truthy] at h
      exact ⟨none, by simp [encounterRefId, JSON.truthy, h]⟩
  | some (.arr xs) =>
      simp [refOk, JSON.truthy] at h
      exact ⟨none, by simp [encounterRefId, JSON.truthy, h]⟩
  | some (.obj fs) =>
      simp [refOk, JSON.truthy] at h
      exact ⟨none, by simp [encounterRefId, JSON.truthy, h]⟩

/-- Computing the two-step nested path encounter.reference when the
encounter field holds an object. -/
theorem getNestedValue_encounter_obj (r : JObj) (fse : JObj)
    (he : r.lookup "encounter" = some (.obj fse)) :
    getNestedValue r "encounter.reference" = fse.lookup "reference" := by
  have hsplit : splitDot "encounter.reference" = ["encounter", "reference"] := by decide
  unfold getNestedValue
  rw [hsplit]
  simp only [getNestedStep, he]
  cases fse.lookup "reference" <;> rfl

/-- On a well-typed resource, document construction never raises and the
built document carries exactly the supplied patient link. -/
theorem buildDoc_ok_of_sane (r : JObj) (rtS : String) (rid pid : JSON)
    (h : Sane r = true) :
    ∃ d, buildDoc r rtS rid pid = .ok d ∧ d.patientId = pid ∧
      d.resourceType = rtS ∧ d.id = rid := by
  obtain ⟨-, -, -, -, -, h6, h7, h8⟩ := sane_parts r h
  unfold buildDoc
  have hm : ∃ fsm, (r.lookup "meta").getD (.obj .nil) = .obj fsm := by
    rcases hv : r.lookup "meta" with - | j
    · exact ⟨.nil, rfl⟩
    · rw [hv] at h6
      cases j with
      | obj fs => exact ⟨fs, rfl⟩
      | null => simp [objOk] at h6
      | bool b => simp [objOk] at h6
      | num n => simp [objOk] at h6
      | str s => simp [objOk] at h6
      | arr xs => simp [objOk] at h6
  obtain ⟨fsm, hfsm⟩ := hm
  rw [hfsm]
  simp only [pyGetAttr]
  have hrefok : ∃ fse, (r.lookup "encounter").getD (.obj .nil) = .obj fse ∧
      refOk (fse.lookup "reference") = true := by
    rcases hv : r.lookup "encounter" with - | j
    · exact ⟨.nil, rfl, rfl⟩
    · rw [hv] at h7
      cases j with
      | obj fs =>
          refine ⟨fs, rfl, ?_⟩
          rwa [getNestedValue_encounter_obj r fs hv] at h8
      | null => simp [objOk] at h7
      | bool b => simp [objOk] at h7
      | num n => simp [objOk] at h7
      | str s => simp [objOk] at h7
      | arr xs => simp [objOk] at h7
  obtain ⟨fse, hfse, hrok⟩ := hrefok
  rw [hfse]
  simp only [pyGetAttr]
  obtain ⟨o, ho⟩ := encounterRefId_ok _ hrok
  rw [ho]
  exact ⟨_, rfl, rfl, rfl, rfl⟩

/-- Members of a replaced assoc list are old members or the new binding. -/
theorem docsReplace_mem (key : String × JSON) (nd : StoredDoc) :
    ∀ (l : List ((String × JSON) × StoredDoc)) (kd : (String × JSON) × StoredDoc),
      kd ∈ docsReplace l key nd → kd ∈ l ∨ kd = (key, nd)
  | [], kd, hmem => by simp [docsReplace] at hmem
  | (k, d) :: rest, kd, hmem => by
      by_cases hk : k = key
      · rw [docsReplace, if_pos hk] at hmem
        rcases List.mem_cons.mp hmem with heq | htl
        · right; rw [heq, hk]
        · left; exact List.mem_cons_of_mem _ htl
      · rw [docsReplace, if_neg hk] at hmem
        rcases List.mem_cons.mp hmem with heq | htl
        · left; rw [heq]; exact List.mem_cons_self _ _
        · rcases docsReplace_mem key nd rest kd htl with hin | heq
          · exact Or.inl (List.mem_cons_of_mem _ hin)
          · exact Or.inr heq

/-- Re-upserting the same built document is the identity on it. -/
theorem applyUpsert_self (d : StoredDoc) : applyUpsert d d = d := by
  unfold applyUpsert
  have harm : (match d.encounterId with
               | some x => some x
               | none => d.encounterId) = d.encounterId := by
    cases d.encounterId <;> rfl
  rw [harm]

/-- The dead-letter list is untouched by the raw upsert operation. -/
theorem upsertDoc_dead (st : IngSt) (key : String × JSON) (d : StoredDoc) :
    (upsertDoc st key d).1.dead = st.dead := by
  unfold upsertDoc nextWrite
  rcases ho : st.oracle with - | ⟨b, rest⟩
  · cases hf : docsFind st.docs key <;> simp [hf]
  · cases b
    · simp
    · simp
      cases hf : docsFind ({ st with oracle := rest } : IngSt).docs key <;> simp [hf]

/-- A raising upsert leaves the stored documents untouched. -/
theorem upsertDoc_error_docs (st : IngSt) (key : String × JSON) (d : StoredDoc)
    (st2 : IngSt) (e : PErr) (h : upsertDoc st key d = (st2, .error e)) :
    st2.docs = st.docs := by
  unfold upsertDoc nextWrite at h
  rcases ho : st.oracle with - | ⟨b, rest⟩ <;> simp only [ho] at h
  · cases hf : docsFind st.docs key <;> simp [hf] at h
  · cases b
    · simp at h
      rw [← h.1]
    · simp at h
      cases hf : docsFind ({ st with oracle := rest } : IngSt).docs key <;>
        simp [hf] at h

/-- The upsert either succeeds (inserted or updated) or raises; in every
case the statistics and the dead-letter list are untouched, and on a raise
the documents are untouched too. -/
theorem upsertDoc_cases (st : IngSt) (key : String × JSON) (d : StoredDoc) :
    ∃ st2, (upsertDoc st key d = (st2, .ok true) ∨
            upsertDoc st key d = (st2, .ok false) ∨
            ∃ e, upsertDoc st key d = (st2, .error e) ∧ st2.docs = st.docs) ∧
      st2.stats = st.stats ∧ st2.dead = st.dead := by
  rcases hu : upsertDoc st key d with ⟨st2, res⟩
  have hs : st2.stats = st.stats := by
    have hp := upsertDoc_stats st key d
    rwa [hu] at hp
  have hd : st2.dead = st.dead := by
    have hp := upsertDoc_dead st key d
    rwa [hu] at hp
  refine ⟨st2, ?_, hs, hd⟩
  cases res with
  | ok b =>
      cases b
      · exact Or.inr (Or.inl rfl)
      · exact Or.inl rfl
  | error e => exact Or.inr (Or.inr ⟨e, rfl, upsertDoc_error_docs st key d st2 e hu⟩)

/-- On a well-typed resource, process_resource returns normally, increments
processed by exactly one, increments exactly one of inserted, updated and
errors, and never moves the dead-letter counter ahead of the errors
counter. -/
theorem processResource_step (st : IngSt) (r : JObj) (h : Sane r = true) :
    ∃ b st1, processResource st r = (st1, .ok b) ∧
      st1.stats.processed = st.stats.processed + 1 ∧
      st1.stats.inserted + st1.stats.updated + st1.stats.errors
        = st.stats.inserted + st.stats.updated + st.stats.errors + 1 ∧
      st1.stats.dead_letter + st.stats.errors
        ≤ st.stats.dead_letter + st1.stats.errors := by
  obtain ⟨v, errs, hv⟩ := validate_ok_of_sane r h
  cases v with
  | false =>
      obtain ⟨⟨hp, hi, hu2, he⟩, hdl, -, -⟩ :=
        storeDeadLetter_shape (bumpProcessed st) r "validation_error" errs
      refine ⟨false,
        bumpErrors (storeDeadLetter (bumpProcessed st) r "validation_error" errs),
        ?_, ?_, ?_, ?_⟩
      · simp only [processResource, hv]
        rfl
      · simp [bumpErrors, bumpProcessed, hp]
        simp [bumpProcessed] at hp
        omega
      · simp [bumpErrors, bumpProcessed] at hi hu2 he ⊢
        omega
      · simp [bumpErrors, bumpProcessed] at he hdl ⊢
        rcases hdl with h1 | h1 <;> omega
  | true =>
      obtain ⟨-, ⟨rtS, hrt, hsup⟩, ⟨rid, hrid, -⟩, -, ⟨pid, hpid, hpt⟩⟩ :=
        validate_true_inv r errs hv
      obtain ⟨collName, hcoll⟩ := Option.isSome_iff_exists.mp hsup
      obtain ⟨d, hd, -, -, -⟩ := buildDoc_ok_of_sane r rtS rid pid h
      obtain ⟨st2, hcase, hst2s, hst2d⟩ :=
        upsertDoc_cases (bumpProcessed st) (rtS, rid) d
      rcases hcase with hu | hu | ⟨e, hu, -⟩
      · refine ⟨true, bumpInserted st2, ?_, ?_, ?_, ?_⟩
        · simp only [processResource, hv, hpid, hrt, hcoll, hrid, optTruthy, hpt,
            Option.getD_some, hd, hu]
          simp
        · simp [bumpInserted, hst2s, bumpProcessed]
        · simp [bumpInserted, hst2s, bumpProcessed]
          omega
        · simp [bumpInserted, hst2s, bumpProcessed]
      · refine ⟨true, bumpUpdated st2, ?_, ?_, ?_, ?_⟩
        · simp only [processResource, hv, hpid, hrt, hcoll, hrid, optTruthy, hpt,
            Option.getD_some, hd, hu]
          simp
        · simp [bumpUpdated, hst2s, bumpProcessed]
        · simp [bumpUpdated, hst2s, bumpProcessed]
          omega
        · simp [bumpUpdated, hst2s, bumpProcessed]
      · obtain ⟨⟨hp, hi, hu2, he⟩, hdl, -, -⟩ :=
          storeDeadLetter_shape st2 r "storage_error" [e.msg]
        refine ⟨false,
          bumpErrors (storeDeadLetter st2 r "storage_error" [e.msg]),
          ?_, ?_, ?_, ?_⟩
        · simp only [processResource, hv, hpid, hrt, hcoll, hrid, optTruthy, hpt,
            Option.getD_some, hd, hu]
          simp
        · simp [bumpErrors] at *
          rw [hp, hst2s]
          simp [bumpProcessed]
        · simp [bumpErrors, hst2s, bumpProcessed] at hi hu2 he ⊢
          omega
        · simp [bumpErrors, hst2s, bumpProcessed] at he hdl ⊢
          rcases hdl with h1 | h1 <;> omega

/-- Dead letters present after an attempt are the old ones plus possibly
one entry carrying the attempted reason. -/
theorem storeDeadLetter_dead_mem (st : IngSt) (r : JObj) (reason : String)
    (ds : List String) :
    ∀ dd ∈ (storeDeadLetter st r reason ds).dead,
      dd ∈ st.dead ∨ dd.reason = reason := by
  obtain ⟨-, -, -, hdead⟩ := storeDeadLetter_shape st r reason ds
  intro dd hmem
  rcases hdead with h1 | h1
  · rw [h1] at hmem
    exact Or.inl hmem
  · rw [h1] at hmem
    rcases List.mem_append.mp hmem with hin | hnew
    · exact Or.inl hin
    · right
      simp at hnew
      rw [hnew]

/-- Documents present after an upsert are the old ones plus possibly the
upserted document (whose patient link is the built one). -/
theorem upsertDoc_docs_mem (st : IngSt) (key : String × JSON) (d : StoredDoc) :
    ∀ kd ∈ (upsertDoc st key d).1.docs,
      kd ∈ st.docs ∨ kd.2.patientId = d.patientId := by
  intro kd hmem
  unfold upsertDoc nextWrite at hmem
  rcases ho : st.oracle with - | ⟨b, rest⟩ <;> simp only [ho] at hmem
  · cases hf : docsFind st.docs key <;> simp only [hf] at hmem
    · simp at hmem
      rcases hmem with hin | hnew
      · exact Or.inl hin
      · right
        rw [hnew]
    · simp at hmem
      rcases docsReplace_mem key _ st.docs kd hmem with hin | hnew
      · exact Or.inl hin
      · right
        rw [hnew]
        rfl
  · cases b
    · simp at hmem
      exact Or.inl hmem
    · cases hf : docsFind st.docs key
      · simp [hf] at hmem
        rcases hmem with hin | hnew
        · exact Or.inl hin
        · right
          rw [hnew]
      · simp [hf] at hmem
        rcases docsReplace_mem key _ st.docs kd hmem with hin | hnew
        · exact Or.inl hin
        · right
          rw [hnew]
          rfl

/-- For every resource and every state, the dead-letter entries after a
process_resource call are the old ones plus possibly one entry whose
reason is validation_error or storage_error: the no_patient_reference
branch is unreachable, because validation already performs the same link
derivation and the derivation is deterministic. -/
theorem processResource_dead_reasons (st : IngSt) (r : JObj) :
    ∀ dd ∈ (processResource st r).1.dead,
      dd ∈ st.dead ∨ dd.reason = "validation_error" ∨
        dd.reason = "storage_error" := by
  intro dd hmem
  rcases hv : validateResource r with e | ⟨v, errs⟩
  · simp only [processResource, hv] at hmem
    exact Or.inl hmem
  · cases v with
    | false =>
        simp only [processResource, hv] at hmem
        have hmem2 : dd ∈
            (storeDeadLetter (bumpProcessed st) r "validation_error" errs).dead :=
          hmem
        rcases storeDeadLetter_dead_mem _ _ _ _ dd hmem2 with hin | hr
        · exact Or.inl hin
        · exact Or.inr (Or.inl hr)
    | true =>
        obtain ⟨-, ⟨rtS, hrt, hsup⟩, ⟨rid, hrid, -⟩, -, ⟨pid, hpid, hpt⟩⟩ :=
          validate_true_inv r errs hv
        obtain ⟨collName, hcoll⟩ := Option.isSome_iff_exists.mp hsup
        rcases hbd : buildDoc r rtS rid pid with e | d
        · simp only [processResource, hv, hpid, hrt, hcoll, hrid, optTruthy, hpt,
            Option.getD_some, hbd] at hmem
          simp at hmem
          exact Or.inl hmem
        · obtain ⟨st2, hcase, -, hst2d⟩ :=
            upsertDoc_cases (bumpProcessed st) (rtS, rid) d
          rcases hcase with hu | hu | ⟨e, hu, -⟩
          · simp only [processResource, hv, hpid, hrt, hcoll, hrid, optTruthy, hpt,
              Option.getD_some, hbd, hu] at hmem
            simp [bumpInserted] at hmem
            rw [hst2d] at hmem
            exact Or.inl hmem
          · simp only [processResource, hv, hpid, hrt, hcoll, hrid, optTruthy, hpt,
              Option.getD_some, hbd, hu] at hmem
            simp [bumpUpdated] at hmem
            rw [hst2d] at hmem
            exact Or.inl hmem
          · simp only [processResource, hv, hpid, hrt, hcoll, hrid, optTruthy, hpt,
              Option.getD_some, hbd, hu] at hmem
            simp [bumpErrors] at hmem
            have hmem2 : dd ∈
                (storeDeadLetter st2 r "storage_error" [e.msg]).dead := hmem
            rcases storeDeadLetter_dead_mem _ _ _ _ dd hmem2 with hin | hr
            · rw [hst2d] at hin
              exact Or.inl hin
            · exact Or.inr (Or.inr hr)

/-- Every stored document present after a process_resource call on a
well-typed resource was already stored before or carries the nonempty
string patient link that derive_patient_id produced for the resource. -/
theorem processResource_docs (st : IngSt) (r : JObj) (h : Sane r = true) :
    ∀ kd ∈ (processResource st r).1.docs,
      kd ∈ st.docs ∨
      ∃ s, kd.2.patientId = .str s ∧ s ≠ "" ∧
        derivePatientId r = .ok (some (.str s)) := by
  intro kd hmem
  obtain ⟨v, errs, hv⟩ := validate_ok_of_sane r h
  cases v with
  | false =>
      simp only [processResource, hv] at hmem
      obtain ⟨-, -, hdocs, -⟩ :=
        storeDeadLetter_shape (bumpProcessed st) r "validation_error" errs
      have hmem2 : kd ∈
          (storeDeadLetter (bumpProcessed st) r "validation_error" errs).docs :=
        hmem
      rw [hdocs] at hmem2
      exact Or.inl hmem2
  | true =>
      obtain ⟨-, ⟨rtS, hrt, hsup⟩, ⟨rid, hrid, -⟩, -, ⟨pid, hpid, hpt⟩⟩ :=
        validate_true_inv r errs hv
      obtain ⟨collName, hcoll⟩ := Option.isSome_iff_exists.mp hsup
      obtain ⟨o, ho, hos⟩ := derive_ok_of_sane r h
      rw [hpid] at ho
      have hoeq : some pid = o := by
        injection ho with ho1
      obtain ⟨s, hs⟩ : ∃ s, pid = JSON.str s := by
        rcases hos with hnone | ⟨s, hsome⟩
        · rw [← hoeq] at hnone
          cases hnone
        · rw [← hoeq] at hsome
          exact ⟨s, by injection hsome⟩
      have hne : s ≠ "" := by
        rw [hs] at hpt
        simpa [JSON.truthy] using hpt
      obtain ⟨d, hbd, hdpid, -, -⟩ := buildDoc_ok_of_sane r rtS rid pid h
      obtain ⟨st2, hcase, -, -⟩ := upsertDoc_cases (bumpProcessed st) (rtS, rid) d
      have hupsmem := upsertDoc_docs_mem (bumpProcessed st) (rtS, rid) d
      rcases hcase with hu | hu | ⟨e, hu, hudocs⟩
      · simp only [processResource, hv, hpid, hrt, hcoll, hrid, optTruthy, hpt,
          Option.getD_some, hbd, hu] at hmem
        simp [bumpInserted] at hmem
        have hmem2 : kd ∈ (upsertDoc (bumpProcessed st) (rtS, rid) d).1.docs := by
          rw [hu]
          exact hmem
        rcases hupsmem kd hmem2 with hin | hpideq
        · exact Or.inl hin
        · right
          exact ⟨s, by rw [hpideq, hdpid, hs], hne, by rw [hpid, hs]⟩
      · simp only [processResource, hv, hpid, hrt, hcoll, hrid, optTruthy, hpt,
          Option.getD_some, hbd, hu] at hmem
        simp [bumpUpdated] at hmem
        have hmem2 : kd ∈ (upsertDoc (bumpProcessed st) (rtS, rid) d).1.docs := by
          rw [hu]
          exact hmem
        rcases hupsmem kd hmem2 with hin | hpideq
        · exact Or.inl hin
        · right
          exact ⟨s, by rw [hpideq, hdpid, hs], hne, by rw [hpid, hs]⟩
      · simp only [processResource, hv, hpid, hrt, hcoll, hrid, optTruthy, hpt,
          Option.getD_some, hbd, hu] at hmem
        simp [bumpErrors] at hmem
        obtain ⟨-, -, hdocs2, -⟩ :=
          storeDeadLetter_shape st2 r "storage_error" [e.msg]
        have hmem2 : kd ∈ (storeDeadLetter st2 r "storage_error" [e.msg]).docs :=
          hmem
        rw [hdocs2, hudocs] at hmem2
        exact Or.inl hmem2

/-- Detailed outcome of process_resource on a valid well-typed resource
when every storage write succeeds: an insert bumping inserted when the
key is absent, an in-place update bumping updated when it is present. -/
theorem processResource_valid_run (st : IngSt) (r : JObj) (errs : List String)
    (h : Sane r = true) (hv : validateResource r = .ok (true, errs))
    (ho : st.oracle = []) :
    ∃ rtS rid pid d,
      r.lookup "resourceType" = some (.str rtS) ∧
      r.lookup "id" = some rid ∧
      derivePatientId r = .ok (some pid) ∧
      buildDoc r rtS rid pid = .ok d ∧
      ((docsFind st.docs (rtS, rid) = none ∧
        processResource st r =
          ({ st with
             stats := { st.stats with
                        processed := st.stats.processed + 1,
                        inserted := st.stats.inserted + 1 },
             docs := st.docs ++ [((rtS, rid), d)] }, .ok true)) ∨
       (∃ old, docsFind st.docs (rtS, rid) = some old ∧
        processResource st r =
          ({ st with
             stats := { st.stats with
                        processed := st.stats.processed + 1,
                        updated := st.stats.updated + 1 },
             docs := docsReplace st.docs (rtS, rid) (applyUpsert old d) },
           .ok true))) := by
  obtain ⟨-, ⟨rtS, hrt, hsup⟩, ⟨rid, hrid, -⟩, -, ⟨pid, hpid, hpt⟩⟩ :=
    validate_true_inv r errs hv
  obtain ⟨collName, hcoll⟩ := Option.isSome_iff_exists.mp hsup
  obtain ⟨d, hbd, -, -, -⟩ := buildDoc_ok_of_sane r rtS rid pid h
  refine ⟨rtS, rid, pid, d, hrt, hrid, hpid, hbd, ?_⟩
  cases hf : docsFind st.docs (rtS, rid) with
  | none =>
      left
      refine ⟨rfl, ?_⟩
      simp only [processResource, hv, hpid, hrt, hcoll, hrid, optTruthy, hpt,
        Option.getD_some, hbd]
      simp [upsertDoc, nextWrite, bumpProcessed, bumpInserted, ho, hf]
  | some old =>
      right
      refine ⟨old, rfl, ?_⟩
      simp only [processResource, hv, hpid, hrt, hcoll, hrid, optTruthy, hpt,
        Option.getD_some, hbd]
      simp [upsertDoc, nextWrite, bumpProcessed, bumpUpdated, ho, hf]

/-- A sequence of well-typed resources is processed to the end: each call
returns normally, processed grows by the length, the three outcome
counters grow by the length together, and the dead-letter counter never
outgrows the errors counter. -/
theorem processSeq_sane (rs : List JObj) : ∀ (st : IngSt),
    (∀ r ∈ rs, Sane r = true) →
    ∃ stF, processSeq st rs = (stF, .ok ()) ∧
      stF.stats.processed = st.stats.processed + rs.length ∧
      stF.stats.inserted + stF.stats.updated + stF.stats.errors
        = st.stats.inserted + st.stats.updated + st.stats.errors + rs.length ∧
      stF.stats.dead_letter + st.stats.errors
        ≤ st.stats.dead_letter + stF.stats.errors := by
  induction rs with
  | nil =>
      intro st _
      exact ⟨st, rfl, by simp, by simp, le_rfl⟩
  | cons r rest ih =>
      intro st hall
      obtain ⟨b, st1, hpr, hp, hsum, hdl⟩ :=
        processResource_step st r (hall r (by simp))
      obtain ⟨stF, hseq, hp2, hsum2, hdl2⟩ :=
        ih st1 (fun x hx => hall x (by simp [hx]))
      refine ⟨stF, ?_, ?_, ?_, ?_⟩
      · simp only [processSeq, hpr, hseq]
      · rw [hp2, hp]
        simp only [List.length_cons]
        omega
      · simp only [List.length_cons]
        omega
      · omega

/-- Claim C9: for every list of resources and all positive batch sizes,
process_batch produces exactly the same final state (statistics, stored
documents, dead-letter entries, in the same per-resource order) as
processing each resource one at a time sequentially, hence the same as
process_batch with any other positive batch size: chunking is
observationally a no-op. -/
theorem claim_C9_chunking_noop (st : IngSt) (rs : List JObj) (b1 b2 : Nat)
    (h1 : 1 ≤ b1) (h2 : 1 ≤ b2) :
    processBatch st rs b1 = sequentialRun st rs ∧
    processBatch st rs b1 = processBatch st rs b2 := by
  have e1 := processBatch_eq_seq st rs b1 h1
  have e2 := processBatch_eq_seq st rs b2 h2
  exact ⟨e1, by rw [e1, e2]⟩

/-- Witness for C9 at a concrete two-resource batch and batch sizes 1 and
500. -/
theorem claim_C9_witness :
    processBatch initialState [patientP1, obsO1] 1
      = sequentialRun initialState [patientP1, obsO1] ∧
    processBatch initialState [patientP1, obsO1] 1
      = processBatch initialState [patientP1, obsO1] 500 :=
  claim_C9_chunking_noop initialState [patientP1, obsO1] 1 500
    (by decide) (by decide)

/-- Claim C8: for every starting state and sequence of well-typed
resources, every resource of the sequence is processed (the processed
counter grows by the full length, regardless of validation,
link-derivation or storage failures of earlier resources) and the caller
receives the statistics summary. -/
theorem claim_C8_no_abort (st : IngSt) (rs : List JObj) (bs : Nat)
    (hbs : 1 ≤ bs) (hall : ∀ r ∈ rs, Sane r = true) :
    ∃ stF, processBatch st rs bs = (stF, .ok stF.stats) ∧
      stF.stats.processed = st.stats.processed + rs.length := by
  obtain ⟨stF, hseq, hp, -, -⟩ := processSeq_sane rs st hall
  refine ⟨stF, ?_, hp⟩
  rw [processBatch_eq_seq st rs bs hbs]
  unfold sequentialRun
  rw [hseq]

/-- Witness for C8: a batch whose first resource fails validation still
processes the second resource and returns the summary. -/
theorem claim_C8_witness :
    ∃ stF, processBatch initialState [obsNoRef, patientP1] 500
      = (stF, .ok stF.stats) ∧
      stF.stats.processed = initialState.stats.processed + 2 :=
  claim_C8_no_abort initialState [obsNoRef, patientP1] 500 (by decide)
    (by decide)

/-- Claim C10: starting from a freshly initialized ingestor, after any
sequence of process_resource calls on well-typed resources, under any
storage-outcome oracle, processed equals inserted plus updated plus
errors, and the dead-letter counter never exceeds the errors counter. -/
theorem claim_C10_counter_invariant (rs : List JObj) (o : List Bool)
    (hall : ∀ r ∈ rs, Sane r = true) :
    ∃ stF, processSeq (initialStateOracle o) rs = (stF, .ok ()) ∧
      stF.stats.processed
        = stF.stats.inserted + stF.stats.updated + stF.stats.errors ∧
      stF.stats.dead_letter ≤ stF.stats.errors := by
  obtain ⟨stF, hseq, hp, hsum, hdl⟩ :=
    processSeq_sane rs (initialStateOracle o) hall
  refine ⟨stF, hseq, ?_, ?_⟩
  · simp [initialStateOracle, Stats.init] at hp hsum
    omega
  · simp [initialStateOracle, Stats.init] at hdl
    omega

/-- Witness for C10: one stored resource, one validation failure and one
storage failure (first oracle entry false). -/
theorem claim_C10_witness :
    ∃ stF, processSeq (initialStateOracle [false]) [patientP1, obsNoRef]
        = (stF, .ok ()) ∧
      stF.stats.processed
        = stF.stats.inserted + stF.stats.updated + stF.stats.errors ∧
      stF.stats.dead_letter ≤ stF.stats.errors :=
  claim_C10_counter_invariant [patientP1, obsNoRef] [false] (by decide)

/-- Counterexample to claim C4: the counters are not reset at the start of
process_batch.  After two batch calls of one valid resource each on the
same ingestor, the second call returns processed = 2 (cumulative), not
the 1 that a per-invocation reset would give. -/
theorem claim_C4_counterexample :
    (processBatch (processBatch initialState [patientP1] 500).1 [patientP1]
        500).2 = .ok ⟨2, 1, 1, 0, 0⟩ ∧ (2 : Nat) ≠ 1 := by
  constructor
  · have h1 : processBatch initialState [patientP1] 500
        = sequentialRun initialState [patientP1] :=
      processBatch_eq_seq _ _ _ (by omega)
    rw [h1, processBatch_eq_seq _ _ _ (by omega)]
    decide
  · decide

/-- Claim C4 as amended: the counters are set to zero once at ingestor
construction and are never reset by process_batch; the statistics a batch
call returns are cumulative across all calls on the same ingestor — an
empty batch returns the incoming counters unchanged, and a batch of
well-typed resources returns the incoming processed counter plus the
batch length. -/
theorem claim_C4_amended :
    (∀ (st : IngSt) (bs : Nat), 1 ≤ bs →
       processBatch st [] bs = (st, .ok st.stats)) ∧
    (∀ (st : IngSt) (rs : List JObj) (bs : Nat), 1 ≤ bs →
       (∀ r ∈ rs, Sane r = true) →
       ∃ stF, processBatch st rs bs = (stF, .ok stF.stats) ∧
         stF.stats.processed = st.stats.processed + rs.length ∧
         stF.stats.inserted + stF.stats.updated + stF.stats.errors
           = st.stats.inserted + st.stats.updated + st.stats.errors
             + rs.length) := by
  constructor
  · intro st bs hbs
    rw [processBatch_eq_seq st [] bs hbs]
    rfl
  · intro st rs bs hbs hall
    obtain ⟨stF, hseq, hp, hsum, -⟩ := processSeq_sane rs st hall
    refine ⟨stF, ?_, hp, hsum⟩
    rw [processBatch_eq_seq st rs bs hbs]
    unfold sequentialRun
    rw [hseq]

/-- Witness for the amended C4 at a state with nonzero counters: the
empty batch hands them back unchanged, and a singleton batch adds one on
top of the old count. -/
theorem claim_C4_witness :
    (processBatch ⟨⟨5, 1, 2, 2, 2⟩, [], [], []⟩ [] 500
       = (⟨⟨5, 1, 2, 2, 2⟩, [], [], []⟩, .ok ⟨5, 1, 2, 2, 2⟩)) ∧
    (∃ stF, processBatch (⟨⟨5, 1, 2, 2, 2⟩, [], [], []⟩ : IngSt) [patientP1]
        500 = (stF, .ok stF.stats) ∧
      stF.stats.processed = 5 + 1 ∧
      stF.stats.inserted + stF.stats.updated + stF.stats.errors
        = 1 + 2 + 2 + 1) :=
  ⟨claim_C4_amended.1 ⟨⟨5, 1, 2, 2, 2⟩, [], [], []⟩ 500 (by decide),
   claim_C4_amended.2 ⟨⟨5, 1, 2, 2, 2⟩, [], [], []⟩ [patientP1] 500
     (by decide) (by decide)⟩

/-- Counterexample to claim C5: a resource whose only failure is
patient-link derivation (structural and type-specific checks all pass) is
dead-lettered with reason validation_error, not no_patient_reference,
because validate_resource itself already contains the link-derivation
check. -/
theorem claim_C5_counterexample :
    validateResource obsNoRef
      = .ok (false, ["Cannot derive patientId from resource"]) ∧
    processResource initialState obsNoRef
      = ({ stats := ⟨1, 0, 0, 1, 1⟩,
           docs := [],
           dead := [⟨some (.str "Observation"), some (.str "o2"),
                     "validation_error",
                     ["Cannot derive patientId from resource"], obsNoRef⟩],
           oracle := [] }, .ok false) ∧
    "validation_error" ≠ "no_patient_reference" := by decide

/-- Claim C5 as amended: a resource whose only violation is the failed
patient-link derivation produces exactly one dead-letter entry with
reason validation_error (details naming the derivation failure), and no
execution of process_resource ever appends an entry with reason
no_patient_reference — that defensive branch is unreachable because
validation already performs the same deterministic derivation. -/
theorem claim_C5_amended :
    (∀ (st : IngSt) (r : JObj), st.oracle = [] →
       validateResource r
         = .ok (false, ["Cannot derive patientId from resource"]) →
       processResource st r =
         ({ st with
            dead := st.dead ++ [⟨r.lookup "resourceType", r.lookup "id",
              "validation_error",
              ["Cannot derive patientId from resource"], r⟩],
            stats := { st.stats with
                       processed := st.stats.processed + 1,
                       errors := st.stats.errors + 1,
                       dead_letter := st.stats.dead_letter + 1 } },
          .ok false)) ∧
    (∀ (st : IngSt) (r : JObj), ∀ dd ∈ (processResource st r).1.dead,
       dd ∈ st.dead ∨ dd.reason ≠ "no_patient_reference") := by
  constructor
  · intro st r ho hv
    have hsd := storeDeadLetter_nilOracle (bumpProcessed st) r "validation_error"
      ["Cannot derive patientId from resource"] (by simpa [bumpProcessed] using ho)
    simp only [processResource, hv]
    rw [hsd]
    simp [bumpErrors, bumpProcessed]
  · intro st r dd hmem
    rcases processResource_dead_reasons st r dd hmem with hin | hre | hre
    · exact Or.inl hin
    · right
      rw [hre]
      decide
    · right
      rw [hre]
      decide

/-- Witness for the amended C5 at the link-only-failure Observation. -/
theorem claim_C5_witness :
    processResource initialState obsNoRef =
      ({ initialState with
         dead := initialState.dead ++ [⟨obsNoRef.lookup "resourceType",
           obsNoRef.lookup "id", "validation_error",
           ["Cannot derive patientId from resource"], obsNoRef⟩],
         stats := { initialState.stats with
                    processed := initialState.stats.processed + 1,
                    errors := initialState.stats.errors + 1,
                    dead_letter := initialState.stats.dead_letter + 1 } },
       .ok false) :=
  claim_C5_amended.1 initialState obsNoRef (by decide) (by decide)

/-- Claim C7: validate_resource short-circuits its base checks in order —
a falsy resourceType returns exactly one violation and nothing else runs;
with a truthy resourceType, a falsy id returns exactly one violation; a
truthy unsupported resourceType string returns exactly the single
unsupported-type violation, with no type-specific or link checks. -/
theorem claim_C7_base_short_circuit :
    (∀ r : JObj, optTruthy (r.lookup "resourceType") = false →
       validateResource r = .ok (false, ["Missing resourceType"])) ∧
    (∀ r : JObj, optTruthy (r.lookup "resourceType") = true →
       optTruthy (r.lookup "id") = false →
       validateResource r = .ok (false, ["Missing id"])) ∧
    (∀ (r : JObj) (s : String), r.lookup "resourceType" = some (.str s) →
       s ≠ "" → SUPPORTED_RESOURCES.lookup s = none →
       optTruthy (r.lookup "id") = true →
       validateResource r = .ok (false, ["Unsupported resourceType: " ++ s])) := by
  refine ⟨?_, ?_, ?_⟩
  · intro r hrt
    unfold validateResource
    rw [if_pos hrt]
  · intro r hrt hid
    unfold validateResource
    rw [if_neg (by simp [hrt]), if_pos hid]
  · intro r s hrt hne hsup hid
    unfold validateResource
    rw [if_neg (by simp [hrt, optTruthy, JSON.truthy, hne]),
        if_neg (by simp [hid])]
    rw [hrt]
    simp only [Option.getD_some, memSupported, hsup, Option.isSome_none]
    simp [pyStr]

/-- Witness for C7 at three concrete malformed resources. -/
theorem claim_C7_witness :
    validateResource (jobj [("id", .str "x")])
      = .ok (false, ["Missing resourceType"]) ∧
    validateResource (jobj [("resourceType", .str "Patient")])
      = .ok (false, ["Missing id"]) ∧
    validateResource (jobj [("resourceType", .str "Medication"),
        ("id", .str "m1")])
      = .ok (false, ["Unsupported resourceType: Medication"]) :=
  ⟨claim_C7_base_short_circuit.1 (jobj [("id", .str "x")]) (by decide),
   claim_C7_base_short_circuit.2.1 (jobj [("resourceType", .str "Patient")])
     (by decide) (by decide),
   claim_C7_base_short_circuit.2.2 (jobj [("resourceType", .str "Medication"),
     ("id", .str "m1")]) "Medication" (by decide) (by decide) (by decide)
     (by decide)⟩

/-- Claim C6: once the base checks pass, type-specific checks are
cumulative — every well-typed Observation with a truthy id but falsy
status and falsy code is invalid with a violation list containing the two
distinct violations for those fields (plus whatever the date and link
checks add). -/
theorem claim_C6_cumulative_observation (r : JObj) (h : Sane r = true)
    (hrt : r.lookup "resourceType" = some (.str "Observation"))
    (hid : optTruthy (r.lookup "id") = true)
    (hst : optTruthy (r.lookup "status") = false)
    (hcode : optTruthy (r.lookup "code") = false) :
    ∃ errs, validateResource r = .ok (false, errs) ∧
      "Observation missing status" ∈ errs ∧
      "Observation missing code" ∈ errs ∧
      ("Observation missing status" : String)
        ≠ "Observation missing code" := by
  obtain ⟨o, ho, -⟩ := derive_ok_of_sane r h
  unfold validateResource
  rw [if_neg (by simp [hrt, optTruthy, JSON.truthy]), if_neg (by simp [hid]),
      hrt]
  simp only [Option.getD_some]
  have hms : memSupported (JSON.str "Observation") = .ok true := by decide
  simp only [hms, ho]
  unfold typeSpecific
  rw [if_neg (by decide), if_pos rfl, if_pos hst, if_pos hcode]
  have hne : ∀ (l1 l2 : List String),
      ((["Observation missing status"] ++ ["Observation missing code"] ++ l1)
        ++ l2).isEmpty = false := by
    intro l1 l2
    simp
  simp only [hne]
  exact ⟨_, rfl, by simp, by simp, by decide⟩

/-- Witness for C6 at the Observation missing both status and code. -/
theorem claim_C6_witness :
    ∃ errs, validateResource obsMissingBoth = .ok (false, errs) ∧
      "Observation missing status" ∈ errs ∧
      "Observation missing code" ∈ errs ∧
      ("Observation missing status" : String)
        ≠ "Observation missing code" :=
  claim_C6_cumulative_observation obsMissingBoth (by decide) (by decide)
    (by decide) (by decide) (by decide)

/-- Property of a document list: every entry was already stored before, or
carries a nonempty string patientId equal to the link derived from the
ingested resource. -/
def docsLinked (st : IngSt) (r : JObj)
    (l : List ((String × JSON) × StoredDoc)) : Prop :=
  ∀ kd ∈ l, kd ∈ st.docs ∨
    ∃ s, kd.2.patientId = .str s ∧ s ≠ "" ∧
      derivePatientId r = .ok (some (.str s))

/-- Claim C2: every document present after process_resource on a
well-typed resource either predates the call or was upserted by it with a
nonempty string patientId equal to the derived patient link; in
particular no document with an empty or absent patientId is ever
upserted. -/
theorem claim_C2_patient_link_invariant (st : IngSt) (r : JObj)
    (h : Sane r = true) :
    docsLinked st r (processResource st r).1.docs :=
  processResource_docs st r h

/-- Witness for C2 at a concrete Observation ingestion from the empty
store. -/
theorem claim_C2_witness :
    docsLinked initialState obsO1
      (processResource initialState obsO1).1.docs :=
  claim_C2_patient_link_invariant initialState obsO1 (by decide)

/-- A string starting with Patient/ is nonempty. -/
theorem pyStartsWith_ne_empty (s : String)
    (h : pyStartsWith s "Patient/" = true) : s ≠ "" := by
  intro he
  subst he
  exact absurd h (by decide)

/-- A reference string starting with Patient/ matches, yielding the part
after the first slash. -/
theorem refMatch_hit (s : String) (hs : pyStartsWith s "Patient/" = true) :
    refMatch (some (.str s)) = .ok (some (s.drop "Patient/".length)) := by
  have hne : s ≠ "" := pyStartsWith_ne_empty s hs
  simp [refMatch, JSON.truthy, hs, hne]

/-- Claim C3: derive_patient_id evaluates its candidates in the fixed
order subject.reference, patient.reference, encounter.subject.reference
(the last only for Encounter resources), then the contained sequence,
returning on the first match; a reference string is used only when it
starts with the literal Patient/, any other string is skipped entirely;
and on the resource with both subject.reference Patient/123 and a
contained Patient 999, the direct reference wins with 123. -/
theorem claim_C3_derivation_priority :
    (∀ (r : JObj) (s : String),
       getNestedValue r "subject.reference" = some (.str s) →
       pyStartsWith s "Patient/" = true →
       derivePatientId r = .ok (some (.str (s.drop "Patient/".length)))) ∧
    (∀ (r : JObj) (t : String),
       refSkip (getNestedValue r "subject.reference") = true →
       getNestedValue r "patient.reference" = some (.str t) →
       pyStartsWith t "Patient/" = true →
       derivePatientId r = .ok (some (.str (t.drop "Patient/".length)))) ∧
    (∀ (r : JObj) (u : String),
       refSkip (getNestedValue r "subject.reference") = true →
       refSkip (getNestedValue r "patient.reference") = true →
       r.lookup "resourceType" = some (.str "Encounter") →
       getNestedValue r "encounter.subject.reference" = some (.str u) →
       pyStartsWith u "Patient/" = true →
       derivePatientId r = .ok (some (.str (u.drop "Patient/".length)))) ∧
    (∀ r : JObj,
       refSkip (getNestedValue r "subject.reference") = true →
       refSkip (getNestedValue r "patient.reference") = true →
       r.lookup "resourceType" ≠ some (.str "Encounter") →
       derivePatientId r = (match r.lookup "contained" with
                            | some c => iterContained c
                            | none => .ok none)) ∧
    (∀ r : JObj,
       refSkip (getNestedValue r "subject.reference") = true →
       refSkip (getNestedValue r "patient.reference") = true →
       refSkip (getNestedValue r "encounter.subject.reference") = true →
       r.lookup "contained" = none →
       derivePatientId r = .ok none) ∧
    derivePatientId rBoth = .ok (some (.str "123")) := by
  refine ⟨?_, ?_, ?_, ?_, ?_, ?_⟩
  · intro r s hsub hs
    unfold derivePatientId
    simp only [hsub, refMatch_hit s hs]
  · intro r t h1 hpat ht
    unfold derivePatientId
    simp only [refMatch_of_refSkip _ h1, hpat, refMatch_hit t ht]
  · intro r u h1 h2 hrt henc hu
    unfold derivePatientId
    simp only [refMatch_of_refSkip _ h1, refMatch_of_refSkip _ h2, hrt]
    rw [if_pos trivial]
    simp only [henc, refMatch_hit u hu]
  · intro r h1 h2 hrtne
    unfold derivePatientId
    simp only [refMatch_of_refSkip _ h1, refMatch_of_refSkip _ h2]
    rw [if_neg hrtne]
  · intro r h1 h2 h3 hcont
    unfold derivePatientId
    simp only [refMatch_of_refSkip _ h1, refMatch_of_refSkip _ h2, hcont]
    by_cases hrt : r.lookup "resourceType" = some (JSON.str "Encounter")
    · rw [if_pos hrt]
      simp only [refMatch_of_refSkip _ h3]
    · rw [if_neg hrt]
  · decide

/-- Witness for C3 exercising each hypothesis-guarded clause at concrete
resources. -/
theorem claim_C3_witness :
    derivePatientId rBoth = .ok (some (.str ("Patient/123".drop
      "Patient/".length))) ∧
    derivePatientId (jobj [("patient",
        .obj (jobj [("reference", .str "Patient/77")])),
      ("subject", .obj (jobj [("reference", .str "http://x/Patient/9")]))])
      = .ok (some (.str ("Patient/77".drop "Patient/".length))) ∧
    derivePatientId (jobj [("resourceType", .str "Encounter"),
      ("encounter", .obj (jobj [("subject",
        .obj (jobj [("reference", .str "Patient/55")]))]))])
      = .ok (some (.str ("Patient/55".drop "Patient/".length))) ∧
    derivePatientId (jobj [("resourceType", .str "Observation"),
      ("encounter", .obj (jobj [("subject",
        .obj (jobj [("reference", .str "Patient/55")]))]))])
      = (match (jobj [("resourceType", .str "Observation"),
          ("encounter", .obj (jobj [("subject",
            .obj (jobj [("reference", .str "Patient/55")]))]))] : JObj).lookup
            "contained" with
         | some c => iterContained c
         | none => .ok none) ∧
    derivePatientId (jobj [("subject",
        .obj (jobj [("reference", .str "Observation/3")])),
      ("patient", .obj (jobj [("reference", .str "patient/9")]))])
      = .ok none :=
  ⟨claim_C3_derivation_priority.1 rBoth "Patient/123" (by decide) (by decide),
   claim_C3_derivation_priority.2.1 _ "Patient/77" (by decide) (by decide)
     (by decide),
   claim_C3_derivation_priority.2.2.1 _ "Patient/55" (by decide) (by decide)
     (by decide) (by decide) (by decide),
   claim_C3_derivation_priority.2.2.2.1 _ (by decide) (by decide) (by decide),
   claim_C3_derivation_priority.2.2.2.2.1 _ (by decide) (by decide) (by decide)
     (by decide)⟩

/-- Claim C1: processing the same valid well-typed resource twice against
an initially empty store leaves exactly one stored document keyed by its
(resourceType, id); the first call increments inserted (and not updated),
the second increments updated (and not inserted), and the stored state
converges. -/
theorem claim_C1_idempotent_ingest (r : JObj) (h : Sane r = true)
    (hv : validateResource r = .ok (true, [])) :
    ∃ rtS rid d,
      r.lookup "resourceType" = some (.str rtS) ∧
      r.lookup "id" = some rid ∧
      processResource initialState r =
        ({ stats := ⟨1, 1, 0, 0, 0⟩, docs := [((rtS, rid), d)], dead := [],
           oracle := [] }, .ok true) ∧
      processResource (processResource initialState r).1 r =
        ({ stats := ⟨2, 1, 1, 0, 0⟩, docs := [((rtS, rid), d)], dead := [],
           oracle := [] }, .ok true) := by
  obtain ⟨rtS, rid, pid, d, hrt, hrid, hpid, hbd, hcase⟩ :=
    processResource_valid_run initialState r [] h hv rfl
  rcases hcase with ⟨-, hrun⟩ | ⟨old, hfold, -⟩
  · have hres1 : processResource initialState r =
        (⟨⟨1, 1, 0, 0, 0⟩, [((rtS, rid), d)], [], []⟩, .ok true) := by
      rw [hrun]
      simp [initialState, Stats.init]
    obtain ⟨rtS2, rid2, pid2, d2, hrt2, hrid2, hpid2, hbd2, hcase2⟩ :=
      processResource_valid_run
        (⟨⟨1, 1, 0, 0, 0⟩, [((rtS, rid), d)], [], []⟩ : IngSt) r [] h hv rfl
    rw [hrt] at hrt2
    rw [hrid] at hrid2
    rw [hpid] at hpid2
    simp only [Option.some.injEq, JSON.str.injEq] at hrt2
    simp only [Option.some.injEq] at hrid2
    simp only [Except.ok.injEq, Option.some.injEq] at hpid2
    subst hrt2
    subst hrid2
    subst hpid2
    rw [hbd] at hbd2
    simp only [Except.ok.injEq] at hbd2
    subst hbd2
    rcases hcase2 with ⟨hf2, -⟩ | ⟨old2, hfold2, hrun2⟩
    · simp [docsFind] at hf2
    · simp [docsFind] at hfold2
      subst hfold2
      refine ⟨rtS, rid, d, hrt, hrid, hres1, ?_⟩
      rw [hres1]
      rw [hrun2]
      simp [docsReplace, applyUpsert_self]
  · simp [initialState, docsFind] at hfold

/-- Witness for C1 at the concrete Patient resource. -/
theorem claim_C1_witness :
    ∃ rtS rid d,
      patientP1.lookup "resourceType" = some (.str rtS) ∧
      patientP1.lookup "id" = some rid ∧
      processResource initialState patientP1 =
        ({ stats := ⟨1, 1, 0, 0, 0⟩, docs := [((rtS, rid), d)], dead := [],
           oracle := [] }, .ok true) ∧
      processResource (processResource initialState patientP1).1 patientP1 =
        ({ stats := ⟨2, 1, 1, 0, 0⟩, docs := [((rtS, rid), d)], dead := [],
           oracle := [] }, .ok true) :=
  claim_C1_idempotent_ingest patientP1 (by decide) (by decide)
